import Mathlib

/-!
# Verification of the exprtk_rs symbol-table / expression wrapper

A shallow embedding of `src/exprtk.rs` (the `SymbolTable`, `StringValue`,
`Expression` and `Parser` wrappers).  The wrapper delegates storage of scalar
cells and of C++ `std::string` objects to the foreign engine / allocator; we
model that process memory explicitly as a `Heap` that every allocating or
mutating operation threads through, so that pointer aliasing between tables
(e.g. after `clone`) is faithfully representable.

Scalar values (`c_double`) are modelled by `ℚ`: none of the verified claims
depends on IEEE rounding, only on store/load round-trips, so a field with
decidable equality stands in for the doubles.
-/

namespace Exprtk

/-- `c_double` values.  The claims below never perform floating-point
arithmetic, only storage and retrieval, so rationals model the doubles. -/
abbrev Scalar := ℚ

/-- A raw pointer: an index into one of the heap's arenas.  The Rust code
stores `*mut c_double` / `*mut CppString` values and compares them for
identity; indices into an append-only arena have exactly that behaviour. -/
abbrev Ptr := Nat

/-- Raw byte strings (contents of string variables; `&[u8]` in the source). -/
abbrev Bytes := List Nat

/-- `Iterator::position` from Rust: index of the first element satisfying the
predicate. -/
def position {α : Type} (p : α → Bool) : List α → Option Nat
  | [] => none
  | a :: l => if p a then some 0 else (position p l).map (· + 1)

/-- Process memory relevant to the wrapper: the scalar cells allocated by the
engine's `symbol_table_create_variable`, and the C++ string objects allocated
by `cpp_string_create`.  Allocation only ever appends. -/
structure Heap where
  cells : List Scalar
  strs : List Bytes
deriving Repr, DecidableEq

def Heap.empty : Heap := ⟨[], []⟩

/-- One binding in the foreign engine's symbol registry.
`var` holds the address of the engine-allocated scalar cell, `str` the address
of the Rust-allocated `CppString`, `vec` the identity of the Rust-owned boxed
slice (modelled as the owning table's slot index at creation time, which is in
bijection with the box's address), `const` an immutable numeric constant and
`func` a registered host function (arity recorded; the trampoline itself is
irrelevant to the claims). -/
inductive EngBinding where
  | var (p : Ptr)
  | str (p : Ptr)
  | vec (idx : Nat)
  | const (v : Scalar)
  | func (arity : Nat)
deriving Repr, DecidableEq

/-- Modelled from the spec: the foreign engine's `symbol_table` object
(`CSymbolTable` behind the FFI, not part of `src/`).  The spec's invariant is
that it maps each name to exactly one binding of one kind, uniqueness being
enforced across all kinds; we keep the registrations in insertion order. -/
structure CSymbolTable where
  syms : List (String × EngBinding)
deriving Repr, DecidableEq

def CSymbolTable.empty : CSymbolTable := ⟨[]⟩

/-- Modelled from the spec: the engine's `symbol_exists` primitive — a name is
present when it is bound in any category. -/
def CSymbolTable.symbol_exists (c : CSymbolTable) (name : String) : Bool :=
  c.syms.any (fun nb => nb.1 == name)

/-- Modelled from the spec: names "must be valid identifiers" — a letter or
underscore followed by letters, digits or underscores. -/
def validSymbolName (name : String) : Bool :=
  match name.toList with
  | [] => false
  | c :: cs => (c.isAlpha || c == '_') && cs.all (fun d => d.isAlphanum || d == '_')

/-- Modelled from the spec: `symbol_table_create_variable`.  Fails (returning
`false`, touching nothing) when the name is structurally invalid or already
bound in any category; otherwise allocates a fresh scalar cell holding `v`
and registers the name. -/
def CSymbolTable.create_variable (c : CSymbolTable) (h : Heap) (name : String)
    (v : Scalar) : Bool × CSymbolTable × Heap :=
  if validSymbolName name && !c.symbol_exists name then
    (true, ⟨c.syms ++ [(name, .var h.cells.length)]⟩,
      { h with cells := h.cells ++ [v] })
  else
    (false, c, h)

/-- Modelled from the spec: `symbol_table_variable_ref` — the address of the
scalar cell bound to `name`, or null (`none`) when `name` is not a numeric
variable. -/
def CSymbolTable.variable_ref (c : CSymbolTable) (name : String) : Option Ptr :=
  match c.syms.find? (fun nb => nb.1 == name) with
  | some (_, .var p) => some p
  | _ => none

/-- Modelled from the spec: `symbol_table_add_stringvar` — registers `name` as
a string variable referring to the caller-allocated `CppString` at `p`.
Fails without mutating when the name is invalid or already bound. -/
def CSymbolTable.add_stringvar (c : CSymbolTable) (name : String) (p : Ptr) :
    Bool × CSymbolTable :=
  if validSymbolName name && !c.symbol_exists name then
    (true, ⟨c.syms ++ [(name, .str p)]⟩)
  else
    (false, c)

/-- Modelled from the spec: `symbol_table_stringvar_ref` — the address of the
`CppString` bound to `name`, or null. -/
def CSymbolTable.stringvar_ref (c : CSymbolTable) (name : String) : Option Ptr :=
  match c.syms.find? (fun nb => nb.1 == name) with
  | some (_, .str p) => some p
  | _ => none

/-- Modelled from the spec: `symbol_table_add_vector` — registers `name` as a
vector variable over the caller-owned storage identified by `idx`. -/
def CSymbolTable.add_vector (c : CSymbolTable) (name : String) (idx : Nat) :
    Bool × CSymbolTable :=
  if validSymbolName name && !c.symbol_exists name then
    (true, ⟨c.syms ++ [(name, .vec idx)]⟩)
  else
    (false, c)

/-- Modelled from the spec: `symbol_table_vector_ptr` — the identity of the
storage bound to `name` as a vector, or null. -/
def CSymbolTable.vector_ptr (c : CSymbolTable) (name : String) : Option Nat :=
  match c.syms.find? (fun nb => nb.1 == name) with
  | some (_, .vec i) => some i
  | _ => none

/-- Modelled from the spec: `symbol_table_valid`, the engine's internal
consistency check.  A live engine table is always internally consistent, so
the `panic!("Bug: SymbolTable state invalid!")` branch of `validate_added`
is unreachable and is omitted from its embedding below. -/
def CSymbolTable.valid (_c : CSymbolTable) : Bool := true

/-- Names of all numeric-variable bindings, in registration order
(`symbol_table_get_variable_list`). -/
def CSymbolTable.variable_names (c : CSymbolTable) : List String :=
  c.syms.filterMap (fun nb => match nb.2 with | .var _ => some nb.1 | _ => none)

/-- Names of all string-variable bindings (`symbol_table_get_stringvar_list`). -/
def CSymbolTable.stringvar_names (c : CSymbolTable) : List String :=
  c.syms.filterMap (fun nb => match nb.2 with | .str _ => some nb.1 | _ => none)

/-- Names of all vector bindings (`symbol_table_get_vector_list`). -/
def CSymbolTable.vector_names (c : CSymbolTable) : List String :=
  c.syms.filterMap (fun nb => match nb.2 with | .vec _ => some nb.1 | _ => none)

/-- Modelled from the spec: `symbol_table_load_from`, used by the wrapper's
`Clone` impl, copies the function bindings ("only for functions apparently",
per the source comment) from `src` into `dst`. -/
def CSymbolTable.load_from (dst src : CSymbolTable) : CSymbolTable :=
  ⟨dst.syms ++ src.syms.filter (fun nb => match nb.2 with | .func _ => true | _ => false)⟩

/-- The error type carried by failed adds (`error.rs` is not under `src/`;
modelled from the spec: "`InvalidName`, carrying the attempted name"). -/
structure InvalidName where
  name : String
deriving Repr, DecidableEq

/-- The result of a Rust computation that may `panic!` / `expect`-fail: either
a loud abort with its message, or a value. -/
inductive PanicOr (α : Type) where
  | panicked (msg : String)
  | ok (a : α)
deriving Repr, DecidableEq

instance {e a : Type} [DecidableEq e] [DecidableEq a] :
    DecidableEq (Except e a) := fun x y =>
  match x, y with
  | .error u, .error w =>
      if h : u = w then .isTrue (by rw [h]) else .isFalse (by simp [h])
  | .error _, .ok _ => .isFalse (by simp)
  | .ok _, .error _ => .isFalse (by simp)
  | .ok u, .ok w =>
      if h : u = w then .isTrue (by rw [h]) else .isFalse (by simp [h])

/-- `SymbolTable` from `src/exprtk.rs`: the engine registry handle plus the
wrapper-side bookkeeping vectors.  `values` holds the raw `*mut c_double`
pointers pushed by `add_variable` (nullable, hence `Option Ptr`); `strings`
the `StringValue` cells (each a `*mut CppString`); `vectors` the Rust-owned
boxed slices.  The `funcs` vector of the source holds only destructor
bookkeeping (freed closure pointers) and is observationally irrelevant, so it
is not carried. -/
structure SymbolTable where
  sym : CSymbolTable
  values : List (Option Ptr)
  strings : List Ptr
  vectors : List (List Scalar)
deriving Repr, DecidableEq

/-- `SymbolTable::new`. -/
def SymbolTable.new : SymbolTable := ⟨CSymbolTable.empty, [], [], []⟩

/-- `SymbolTable::symbol_exists`. -/
def SymbolTable.symbol_exists (st : SymbolTable) (name : String) : Bool :=
  st.sym.symbol_exists name

/-- `SymbolTable::validate_added`.  The `symbol_table_valid` check and its
panic are elided because a live engine table reports valid
(`CSymbolTable.valid` is constantly `true`). -/
def SymbolTable.validate_added {O : Type} (st : SymbolTable) (name : String)
    (result : Bool) (out : O) : Except InvalidName (Option O) :=
  if result then .ok (some out)
  else if st.symbol_exists name then .ok none
  else .error ⟨name⟩

/-- `SymbolTable::add_variable`.  Returns the result together with the updated
table and heap.  Note the source pushes the `variable_ref` pointer onto
`values` on every non-`Err` path, including the duplicate-name path that
returns `Ok(None)`. -/
def SymbolTable.add_variable (st : SymbolTable) (h : Heap) (name : String)
    (v : Scalar) : Except InvalidName (Option Nat) × SymbolTable × Heap :=
  let i := st.values.length
  let r := st.sym.create_variable h name v
  let st' : SymbolTable := { st with sym := r.2.1 }
  match st'.validate_added name r.1 i with
  | .error e => (.error e, st', r.2.2)
  | .ok res =>
      (.ok res,
       { st' with values := st'.values ++ [st'.sym.variable_ref name] }, r.2.2)

/-- `SymbolTable::mut_value`: the location a mutable borrow of slot `var_id`
would write through; panics (`expect("null pointer!")`) on a null entry. -/
def SymbolTable.mut_value (st : SymbolTable) (var_id : Nat) :
    PanicOr (Option Ptr) :=
  match st.values[var_id]? with
  | none => .ok none
  | some none => .panicked "null pointer!"
  | some (some p) => .ok (some p)

/-- `SymbolTable::value`: reads the cell at slot `var_id`. -/
def SymbolTable.value (st : SymbolTable) (h : Heap) (var_id : Nat) :
    PanicOr (Option Scalar) :=
  match st.values[var_id]? with
  | none => .ok none
  | some none => .panicked "null pointer!"
  | some (some p) => .ok (some (h.cells.getD p 0))

/-- `SymbolTable::set_value`: writes through `mut_value`, returning whether a
slot existed together with the resulting heap. -/
def SymbolTable.set_value (st : SymbolTable) (h : Heap) (var_id : Nat)
    (v : Scalar) : PanicOr (Bool × Heap) :=
  match st.values[var_id]? with
  | none => .ok (false, h)
  | some none => .panicked "null pointer!"
  | some (some p) => .ok (true, { h with cells := h.cells.set p v })

/-- `StringValue::new`: `cpp_string_create` copies the bytes into a fresh
heap-allocated C++ string and returns its address. -/
def StringValue.new (h : Heap) (value : Bytes) : Ptr × Heap :=
  (h.strs.length, { h with strs := h.strs ++ [value] })

/-- `StringValue::set`: `cpp_string_set` replaces the contents of the C++
string at `p` (length-explicit, so embedded NUL bytes are stored). -/
def StringValue.set (h : Heap) (p : Ptr) (value : Bytes) : Heap :=
  { h with strs := h.strs.set p value }

/-- `StringValue::get`: `cpp_string_get` exposes the buffer through
`c_str()`-style NUL termination and the Rust side reads it back with
`CStr::from_ptr(..).to_bytes()`, which stops at the first NUL byte.  The
observable result is therefore the longest prefix free of `0` bytes. -/
def StringValue.get (h : Heap) (p : Ptr) : Bytes :=
  (h.strs.getD p []).takeWhile (fun b => b ≠ 0)

/-- `SymbolTable::add_stringvar`: pushes a freshly allocated `StringValue`,
registers it with the engine, and pops the provisional push again when
`validate_added` reports `InvalidName`. -/
def SymbolTable.add_stringvar (st : SymbolTable) (h : Heap) (name : String)
    (text : Bytes) : Except InvalidName (Option Nat) × SymbolTable × Heap :=
  let i := st.strings.length
  let a := StringValue.new h text
  let st1 : SymbolTable := { st with strings := st.strings ++ [a.1] }
  let r := st1.sym.add_stringvar name a.1
  let st2 : SymbolTable := { st1 with sym := r.2 }
  match st2.validate_added name r.1 i with
  | .error e => (.error e, { st2 with strings := st2.strings.dropLast }, a.2)
  | .ok res => (.ok res, st2, a.2)

/-- `SymbolTable::mut_string` (as the slot's `CppString` address). -/
def SymbolTable.mut_string (st : SymbolTable) (var_id : Nat) : Option Ptr :=
  st.strings[var_id]?

/-- `SymbolTable::string` (the slot's `CppString` address; reading its
contents is `StringValue.get`). -/
def SymbolTable.string (st : SymbolTable) (var_id : Nat) : Option Ptr :=
  st.strings[var_id]?

/-- `SymbolTable::set_string`. -/
def SymbolTable.set_string (st : SymbolTable) (h : Heap) (var_id : Nat)
    (text : Bytes) : Bool × Heap :=
  match st.strings[var_id]? with
  | none => (false, h)
  | some p => (true, StringValue.set h p text)

/-- `SymbolTable::add_vector`: pushes the boxed copy of the slice, registers
it, pops it again on `InvalidName`. -/
def SymbolTable.add_vector (st : SymbolTable) (h : Heap) (name : String)
    (vec : List Scalar) : Except InvalidName (Option Nat) × SymbolTable × Heap :=
  let i := st.vectors.length
  let st1 : SymbolTable := { st with vectors := st.vectors ++ [vec] }
  let r := st1.sym.add_vector name i
  let st2 : SymbolTable := { st1 with sym := r.2 }
  match st2.validate_added name r.1 i with
  | .error e => (.error e, { st2 with vectors := st2.vectors.dropLast }, h)
  | .ok res => (.ok res, st2, h)

/-- `SymbolTable::vector`. -/
def SymbolTable.vector (st : SymbolTable) (var_id : Nat) : Option (List Scalar) :=
  st.vectors[var_id]?

/-- `SymbolTable::get_var_ptr`: `variable_ref`, with null mapped to `None`. -/
def SymbolTable.get_var_ptr (st : SymbolTable) (name : String) : Option Ptr :=
  st.sym.variable_ref name

/-- `SymbolTable::get_var_id`: reverse lookup of the cell address among the
pushed pointers (`position` returns the first match). -/
def SymbolTable.get_var_id (st : SymbolTable) (name : String) : Option Nat :=
  (st.get_var_ptr name).bind (fun p => position (fun q => q == some p) st.values)

/-- `SymbolTable::get_string_id`. -/
def SymbolTable.get_string_id (st : SymbolTable) (name : String) : Option Nat :=
  (st.sym.stringvar_ref name).bind
    (fun p => position (fun q => q == p) st.strings)

/-- `SymbolTable::get_vec_id`: compares the engine's stored storage identity
with the wrapper's slots; slot `i`'s box has identity `i`. -/
def SymbolTable.get_vec_id (st : SymbolTable) (name : String) : Option Nat :=
  (st.sym.vector_ptr name).bind
    (fun i => if i < st.vectors.length then some i else none)

/-- The composite read `table.string(id).unwrap().get()` used by the tests and
by `Clone`: the observable contents of string slot `var_id`. -/
def SymbolTable.string_get (st : SymbolTable) (h : Heap) (var_id : Nat) :
    Option Bytes :=
  (st.strings[var_id]?).map (StringValue.get h)

/-- Well-formedness of a table against the heap: every pointer the engine or
the wrapper holds refers to an allocated cell.  All reachable states satisfy
this (the heap is append-only and pointers come from allocation). -/
def SymbolTable.wf (st : SymbolTable) (h : Heap) : Bool :=
  (st.sym.syms.all (fun nb => match nb.2 with
      | .var p => p < h.cells.length
      | .str p => p < h.strs.length
      | _ => true)) &&
  (st.values.all (fun o => match o with
      | some p => p < h.cells.length
      | none => true)) &&
  (st.strings.all (fun p => p < h.strs.length))

/-- The scalar read in `Clone`:
`*self.value(self.get_var_id(&n).unwrap()).unwrap()`.  The unwraps cannot fail
on the names `Clone` iterates over; the defaults stand for those dead
branches. -/
def SymbolTable.clone_var_value (st : SymbolTable) (h : Heap) (n : String) :
    Scalar :=
  match st.get_var_id n with
  | none => 0
  | some i =>
      match st.value h i with
      | .ok (some v) => v
      | _ => 0

/-- The byte read in `Clone`:
`self.string(self.get_string_id(&n).unwrap()).unwrap().get()`. -/
def SymbolTable.clone_string_value (st : SymbolTable) (h : Heap) (n : String) :
    Bytes :=
  match st.get_string_id n with
  | none => []
  | some i =>
      match st.string_get h i with
      | some b => b
      | none => []

/-- The slice read in `Clone`:
`self.vector(self.get_vec_id(&n).unwrap()).unwrap()`. -/
def SymbolTable.clone_vec_value (st : SymbolTable) (n : String) : List Scalar :=
  match st.get_vec_id n with
  | none => []
  | some i =>
      match st.vector i with
      | some v => v
      | none => []

/-- One step of `Clone`'s variable loop:
`s.add_variable(&n, *self.value(self.get_var_id(&n).unwrap()).unwrap())`. -/
def clone_var_step (st : SymbolTable) (sh : SymbolTable × Heap) (n : String) :
    SymbolTable × Heap :=
  let r := sh.1.add_variable sh.2 n (st.clone_var_value sh.2 n)
  (r.2.1, r.2.2)

/-- One step of `Clone`'s string loop. -/
def clone_str_step (st : SymbolTable) (sh : SymbolTable × Heap) (n : String) :
    SymbolTable × Heap :=
  let r := sh.1.add_stringvar sh.2 n (st.clone_string_value sh.2 n)
  (r.2.1, r.2.2)

/-- One step of `Clone`'s vector loop. -/
def clone_vec_step (st : SymbolTable) (sh : SymbolTable × Heap) (n : String) :
    SymbolTable × Heap :=
  let r := sh.1.add_vector sh.2 n (st.clone_vec_value n)
  (r.2.1, r.2.2)

/-- `impl Clone for SymbolTable`: fresh engine table, `load_from` for the
function bindings, then re-adds every variable, string and vector by name
with its current contents.  Each re-add allocates fresh cells, so the clone
shares no storage with the original.  The `.unwrap()` on each re-add cannot
fail because the iterated names are exactly the bound ones. -/
def SymbolTable.clone (st : SymbolTable) (h : Heap) : SymbolTable × Heap :=
  let s0 : SymbolTable :=
    { SymbolTable.new with sym := CSymbolTable.empty.load_from st.sym }
  let sv := st.sym.variable_names.foldl (clone_var_step st) (s0, h)
  let ss := st.sym.stringvar_names.foldl (clone_str_step st) sv
  st.sym.vector_names.foldl (clone_vec_step st) ss

/-! ## The parser

`parser_compile` / `parser_compile_resolve` and the grammar live in the
foreign engine, outside `src/`.  The identifier-resolution behaviour needed by
the claims is modelled from the spec: compiling in resolve mode auto-declares
every identifier not already present in the symbol table as a zero-initialised
numeric variable, in first-occurrence order, and reports the ordered list of
the names so added. -/

/-- First character of an identifier: a letter or underscore. -/
def isIdentStart (c : Char) : Bool := c.isAlpha || c == '_'

/-- Subsequent identifier characters: letters, digits, underscore. -/
def isIdentChar (c : Char) : Bool := c.isAlphanum || c == '_'

/-- Scans the character stream, accumulating the current identifier reversed
in `cur`, and emits the identifiers in occurrence order. -/
def identsAux : List Char → List Char → List String
  | [], cur => if cur.isEmpty then [] else [String.mk cur.reverse]
  | c :: cs, cur =>
      if cur.isEmpty then
        if isIdentStart c then identsAux cs [c] else identsAux cs []
      else
        if isIdentChar c then identsAux cs (c :: cur)
        else String.mk cur.reverse :: identsAux cs []

/-- All identifier occurrences in an expression text, left to right. -/
def extract_idents (s : String) : List String := identsAux s.toList []

/-- Keeps the first occurrence of each element, preserving order. -/
def dedupFirstAux : List String → List String → List String
  | [], _ => []
  | x :: xs, seen =>
      if seen.contains x then dedupFirstAux xs seen
      else x :: dedupFirstAux xs (x :: seen)

/-- Modelled from the spec: the identifiers of `text` that are not already
present in the symbol table, in first-occurrence order — the names
`compile_resolve` auto-declares. -/
def resolve_unknowns (c : CSymbolTable) (text : String) : List String :=
  (dedupFirstAux (extract_idents text) []).filter
    (fun n => !c.symbol_exists n)

/-- Modelled from the spec: `parser_compile_resolve`'s successful-path
behaviour — each unknown identifier is created as a fresh variable initialised
to `0`, and the ordered name list is returned.  (Parse failure returns a
diagnostic instead; the claims exercise only well-formed inputs, so the
failure path is not modelled.) -/
def Parser.compile_resolve (c : CSymbolTable) (h : Heap) (text : String) :
    List String × CSymbolTable × Heap :=
  let names := resolve_unknowns c text
  let r := names.foldl
    (fun (ch : CSymbolTable × Heap) n =>
      let r := ch.1.create_variable ch.2 n 0
      (r.2.1, r.2.2))
    (c, h)
  (names, r.1, r.2)

/-- `Expression` from `src/exprtk.rs`: the source text and the owned symbol
table.  The opaque compiled form (`expr: *mut CExpression`) is the engine's
byte-code and carries no state the claims observe beyond the bound table. -/
structure Expression where
  string : String
  symbols : SymbolTable
deriving Repr, DecidableEq

/-- `Expression::with_vars`: compiles in resolve mode, then pushes the cell
pointer of each newly declared variable onto `values` and pairs the name with
the resulting slot index.  The source's
`.expect("bug, no pointer found")` cannot fire because each name was just
registered; pushing the optional pointer directly models that. -/
def Expression.with_vars (string : String) (symbols : SymbolTable) (h : Heap) :
    (Expression × List (String × Nat)) × Heap :=
  let r := Parser.compile_resolve symbols.sym h string
  let e0 : Expression := ⟨string, { symbols with sym := r.2.1 }⟩
  let out := r.1.foldl
    (fun (acc : Expression × List (String × Nat)) v =>
      let i := acc.1.symbols.values.length
      let p := acc.1.symbols.get_var_ptr v
      ({ acc.1 with
          symbols := { acc.1.symbols with
            values := acc.1.symbols.values ++ [p] } },
       acc.2 ++ [(v, i)]))
    (e0, [])
  (out, r.2.2)

/-! ## Parse errors

`error.rs` is not under `src/`; `ParseErrorKind` and `ParseError` are
modelled from the spec ("failure kind (enumerated)", the engine's eight error
modes) and from the field accesses in `Parser::get_err`. -/

/-- Modelled from the spec: the enumerated failure kinds, one per engine
error mode (unknown, syntax, token, numeric, symbol-table, lexer, helper,
parser — suffixed names to keep the mapping readable). -/
inductive ParseErrorKind where
  | unknownKind
  | grammarKind
  | tokenKind
  | numericKind
  | symtabKind
  | lexerKind
  | helperKind
  | parseKind
deriving Repr, DecidableEq

/-- `enum_primitive`'s `from_i32` for the error kinds. -/
def ParseErrorKind.from_i32 : Int → Option ParseErrorKind
  | 0 => some .unknownKind
  | 1 => some .grammarKind
  | 2 => some .tokenKind
  | 3 => some .numericKind
  | 4 => some .symtabKind
  | 5 => some .lexerKind
  | 6 => some .helperKind
  | 7 => some .parseKind
  | _ => none

/-- The C-side error record read through `parser_error` (`CParseError` behind
the FFI): the pending flag, the raw mode, and the diagnostic fields. -/
structure CParseError where
  is_err : Bool
  mode : Int
  token_type : String
  token_value : String
  diagnostic : String
  error_line : String
  line_no : Nat
  column_no : Nat
deriving Repr, DecidableEq

/-- `ParseError` as constructed by `Parser::get_err`. -/
structure ParseError where
  kind : ParseErrorKind
  token_type : String
  token_value : String
  message : String
  line : String
  line_no : Nat
  column_no : Nat
deriving Repr, DecidableEq

/-- `Parser::get_err`: panics when the engine reports no pending error, and
also when the raw mode is not a known kind; otherwise builds the structured
record from the C-side fields. -/
def Parser.get_err (e : CParseError) : PanicOr ParseError :=
  if e.is_err then
    match ParseErrorKind.from_i32 e.mode with
    | none => .panicked "Unknown ParseErrorKind enum variant"
    | some k =>
        .ok ⟨k, e.token_type, e.token_value, e.diagnostic, e.error_line,
             e.line_no, e.column_no⟩
  else
    .panicked "Compiler notified about error, but there is none."

/-- Runs a sequence of `add_variable` calls, collecting each call's result. -/
def run_adds : List (String × Scalar) → SymbolTable → Heap →
    List (Except InvalidName (Option Nat)) × SymbolTable × Heap
  | [], st, h => ([], st, h)
  | (n, v) :: ops, st, h =>
      let r := st.add_variable h n v
      let rest := run_adds ops r.2.1 r.2.2
      (r.1 :: rest.1, rest.2.1, rest.2.2)

/-- Whether an add result is a non-`InvalidName` outcome (`Ok`, covering both
fresh adds and duplicate no-ops). -/
def isOkAdd (e : Except InvalidName (Option Nat)) : Bool :=
  match e with
  | .ok _ => true
  | .error _ => false

/-- The scalar arena only grows and existing cells keep their contents. -/
def cellsExtend (h0 h1 : Heap) : Prop :=
  h0.cells.length ≤ h1.cells.length ∧
  ∀ p, p < h0.cells.length → h1.cells[p]? = h0.cells[p]?

/-- Invariant carried through the clone's variable fold: every variable
binding in the accumulating engine table, and every pushed slot pointer,
points at or above the boundary `L`. -/
def CloneInv (L : Nat) (s : SymbolTable) : Prop :=
  (∀ nb ∈ s.sym.syms, ∀ p, nb.2 = EngBinding.var p → L ≤ p) ∧
  (∀ o ∈ s.values, ∀ p, o = some p → L ≤ p)

/-! ## Sample states for the witnesses -/

/-- An empty table after `add_variable("x", 1.)`. -/
def exAdd1 := SymbolTable.new.add_variable Heap.empty "x" 1

def exTable1 : SymbolTable := exAdd1.2.1

def exHeap1 : Heap := exAdd1.2.2

/-- A second, duplicate `add_variable("x", 2.)` on that table. -/
def exDup := exTable1.add_variable exHeap1 "x" 2

/-- An empty table after `add_stringvar("s", b"A")`, then
`set_string(0, [0])`. -/
def exStrA := SymbolTable.new.add_stringvar Heap.empty "s" [65]

def exStrASet := exStrA.2.1.set_string exStrA.2.2 0 [0]

/-- `with_vars` on the polynomial of the spec, from an empty table. -/
def exWV := Expression.with_vars "a*x^2 + b*x + c" SymbolTable.new Heap.empty

/-- Three adds with an interleaved duplicate attempt. -/
def exRun := run_adds [("x", 1), ("x", 2), ("y", 3)] SymbolTable.new Heap.empty

/-- An empty table after `add_stringvar("s", b"Hi")`. -/
def exStr := SymbolTable.new.add_stringvar Heap.empty "s" [72, 105]

def exStrTable : SymbolTable := exStr.2.1

def exStrHeap : Heap := exStr.2.2

/-- A table with `x = 5` and `y = 7`. -/
def exA := SymbolTable.new.add_variable Heap.empty "x" 5

def exB := exA.2.1.add_variable exA.2.2 "y" 7

def exTable2 : SymbolTable := exB.2.1

def exHeap2 : Heap := exB.2.2

def exClone : SymbolTable × Heap := exTable2.clone exHeap2

/-- The heap after setting the clone's `x` slot to `99`. -/
def exCloneHeapSet : Heap :=
  match exClone.1.set_value exClone.2 0 99 with
  | .ok r => r.2
  | .panicked _ => Heap.empty

def exErrRecord : CParseError :=
  ⟨true, 1, "token", "(", "unbalanced parenthesis", "(1", 1, 2⟩

def exNoErrRecord : CParseError := ⟨false, 0, "", "", "", "", 0, 0⟩

/-! ## Supporting lemmas -/

theorem position_eq_some_spec {α : Type} (p : α → Bool) (l : List α) (i : Nat)
    (h : position p l = some i) : ∃ a, l[i]? = some a ∧ p a = true := by
  induction l generalizing i with
  | nil => simp [position] at h
  | cons a l ih =>
      by_cases hp : p a
      · simp [position, hp] at h
        subst h
        exact ⟨a, by simp, hp⟩
      · simp [position, hp] at h
        obtain ⟨j, hj, rfl⟩ := h
        obtain ⟨b, hb, hpb⟩ := ih j hj
        exact ⟨b, by simpa using hb, hpb⟩

theorem position_append_fresh {α : Type} (p : α → Bool) (l : List α) (x : α)
    (hl : ∀ a ∈ l, p a = false) (hx : p x = true) :
    position p (l ++ [x]) = some l.length := by
  induction l with
  | nil => simp [position, hx]
  | cons a l ih =>
      have ha : p a = false := hl a (by simp)
      have ih' := ih (fun b hb => hl b (by simp [hb]))
      show (if p a = true then some 0 else (position p (l ++ [x])).map (· + 1))
            = some (l.length + 1)
      rw [ha, ih']
      simp

theorem symbol_exists_false_iff (c : CSymbolTable) (name : String) :
    c.symbol_exists name = false ↔ ∀ nb ∈ c.syms, (nb.1 == name) = false := by
  simp [CSymbolTable.symbol_exists, List.any_eq_true]

theorem variable_ref_append_fresh (c : CSymbolTable) (name : String) (q : Ptr)
    (hex : c.symbol_exists name = false) :
    CSymbolTable.variable_ref ⟨c.syms ++ [(name, .var q)]⟩ name = some q := by
  have hnone : c.syms.find? (fun nb => nb.1 == name) = none :=
    List.find?_eq_none.mpr (fun nb hnb => by
      simp [(symbol_exists_false_iff c name).mp hex nb hnb])
  unfold CSymbolTable.variable_ref
  rw [List.find?_append, hnone]
  simp [List.find?]

theorem variable_ref_mem (c : CSymbolTable) (name : String) (p : Ptr)
    (h : c.variable_ref name = some p) :
    ∃ n', (n', EngBinding.var p) ∈ c.syms := by
  unfold CSymbolTable.variable_ref at h
  cases hf : c.syms.find? (fun nb => nb.1 == name) with
  | none => rw [hf] at h; simp at h
  | some nb =>
      rw [hf] at h
      obtain ⟨n', b⟩ := nb
      cases b with
      | var q =>
          simp at h
          subst h
          exact ⟨n', List.mem_of_find?_eq_some hf⟩
      | str q => simp at h
      | vec q => simp at h
      | const w => simp at h
      | func a => simp at h

/-- Extracting the three bound checks from `SymbolTable.wf`. -/
theorem wf_sym_var_lt (st : SymbolTable) (h : Heap) (hwf : st.wf h = true) :
    ∀ nb ∈ st.sym.syms, ∀ p, nb.2 = EngBinding.var p → p < h.cells.length := by
  intro nb hnb p hp
  unfold SymbolTable.wf at hwf
  simp [List.all_eq_true] at hwf
  have := hwf.1.1 nb.1 nb.2 hnb
  rw [hp] at this
  simpa using this

theorem wf_values_lt (st : SymbolTable) (h : Heap) (hwf : st.wf h = true) :
    ∀ o ∈ st.values, ∀ p, o = some p → p < h.cells.length := by
  intro o ho p hp
  unfold SymbolTable.wf at hwf
  simp [List.all_eq_true] at hwf
  have := hwf.1.2 o ho
  rw [hp] at this
  simpa using this

theorem wf_strings_lt (st : SymbolTable) (h : Heap) (hwf : st.wf h = true) :
    ∀ p ∈ st.strings, p < h.strs.length := by
  intro p hp
  unfold SymbolTable.wf at hwf
  simp [List.all_eq_true] at hwf
  exact hwf.2 p hp

/-! ### Structural case analysis of `add_variable` -/

/-- A fresh, valid name: the add allocates a cell, registers the binding and
pushes the cell's address, returning the next slot index. -/
theorem add_variable_success (st : SymbolTable) (h : Heap) (name : String)
    (v : Scalar) (h1 : validSymbolName name = true)
    (h2 : st.sym.symbol_exists name = false) :
    st.add_variable h name v =
      (.ok (some st.values.length),
       { st with sym := ⟨st.sym.syms ++ [(name, .var h.cells.length)]⟩,
                 values := st.values ++ [some h.cells.length] },
       { h with cells := h.cells ++ [v] }) := by
  unfold SymbolTable.add_variable CSymbolTable.create_variable
  rw [h1, h2]
  simp only [Bool.not_false, Bool.and_self, if_true]
  rw [show (SymbolTable.validate_added
        { st with sym := (⟨st.sym.syms ++ [(name, .var h.cells.length)]⟩ : CSymbolTable) }
        name true st.values.length) = .ok (some st.values.length) from rfl]
  simp [variable_ref_append_fresh st.sym name h.cells.length h2]

/-- A name already bound (in any category): the engine refuses, the wrapper
reports `Ok(None)` and still pushes the (possibly null) `variable_ref`. -/
theorem add_variable_dup (st : SymbolTable) (h : Heap) (name : String)
    (v : Scalar) (hex : st.sym.symbol_exists name = true) :
    st.add_variable h name v =
      (.ok none, { st with values := st.values ++ [st.sym.variable_ref name] },
       h) := by
  unfold SymbolTable.add_variable CSymbolTable.create_variable
  rw [hex]
  simp [SymbolTable.validate_added, SymbolTable.symbol_exists, hex]

/-- A structurally invalid, absent name: `InvalidName`, nothing mutated. -/
theorem add_variable_invalid (st : SymbolTable) (h : Heap) (name : String)
    (v : Scalar) (h1 : validSymbolName name = false)
    (h2 : st.sym.symbol_exists name = false) :
    st.add_variable h name v = (.error ⟨name⟩, st, h) := by
  unfold SymbolTable.add_variable CSymbolTable.create_variable
  rw [h1, h2]
  simp [SymbolTable.validate_added, SymbolTable.symbol_exists, h2]

/-- `Ok(Some i)` forces the fresh-success branch and pins `i` to the slot
count. -/
theorem add_variable_ok_some (st : SymbolTable) (h : Heap) (name : String)
    (v : Scalar) (i : Nat)
    (hr : (st.add_variable h name v).1 = .ok (some i)) :
    validSymbolName name = true ∧ st.sym.symbol_exists name = false ∧
      i = st.values.length := by
  by_cases h2 : st.sym.symbol_exists name
  · rw [add_variable_dup st h name v h2] at hr
    simp at hr
  · by_cases h1 : validSymbolName name
    · rw [add_variable_success st h name v h1 (by simpa using h2)] at hr
      simp at hr
      exact ⟨h1, by simpa using h2, hr.symm⟩
    · rw [add_variable_invalid st h name v (by simpa using h1)
          (by simpa using h2)] at hr
      simp at hr

/-- Each non-erroring call grows `values` by one slot; an erroring call grows
nothing. -/
theorem add_variable_values_length (st : SymbolTable) (h : Heap) (name : String)
    (v : Scalar) :
    (st.add_variable h name v).2.1.values.length
      = st.values.length
        + (if isOkAdd (st.add_variable h name v).1 then 1 else 0) := by
  by_cases h2 : st.sym.symbol_exists name
  · rw [add_variable_dup st h name v h2]
    simp [isOkAdd]
  · by_cases h1 : validSymbolName name
    · rw [add_variable_success st h name v h1 (by simpa using h2)]
      simp [isOkAdd]
    · rw [add_variable_invalid st h name v (by simpa using h1)
          (by simpa using h2)]
      simp [isOkAdd]

/-! ### Structural case analysis of `add_stringvar` / `add_vector` -/

/-- A fresh, valid string name: push, register, return the slot index. -/
theorem add_stringvar_success (st : SymbolTable) (h : Heap) (name : String)
    (text : Bytes) (h1 : validSymbolName name = true)
    (h2 : st.sym.symbol_exists name = false) :
    st.add_stringvar h name text =
      (.ok (some st.strings.length),
       { st with sym := ⟨st.sym.syms ++ [(name, .str h.strs.length)]⟩,
                 strings := st.strings ++ [h.strs.length] },
       { h with strs := h.strs ++ [text] }) := by
  simp [SymbolTable.add_stringvar, CSymbolTable.add_stringvar,
    StringValue.new, SymbolTable.validate_added, SymbolTable.symbol_exists,
    h1, h2]

/-- An engine-refused, absent string name: `InvalidName`, the provisional push
is popped and the wrapper table is exactly restored (the orphaned `CppString`
allocation remains in the heap but is unreachable from the table). -/
theorem add_stringvar_invalid (st : SymbolTable) (h : Heap) (name : String)
    (text : Bytes) (h1 : validSymbolName name = false)
    (h2 : st.sym.symbol_exists name = false) :
    st.add_stringvar h name text =
      (.error ⟨name⟩, st, { h with strs := h.strs ++ [text] }) := by
  simp [SymbolTable.add_stringvar, CSymbolTable.add_stringvar,
    StringValue.new, SymbolTable.validate_added, SymbolTable.symbol_exists,
    h1, h2, List.dropLast_concat]

/-- A duplicate string name: `Ok(None)`, but the provisional push stays. -/
theorem add_stringvar_dup (st : SymbolTable) (h : Heap) (name : String)
    (text : Bytes) (h2 : st.sym.symbol_exists name = true) :
    st.add_stringvar h name text =
      (.ok none, { st with strings := st.strings ++ [h.strs.length] },
       { h with strs := h.strs ++ [text] }) := by
  simp [SymbolTable.add_stringvar, CSymbolTable.add_stringvar,
    StringValue.new, SymbolTable.validate_added, SymbolTable.symbol_exists,
    h2]

/-- `add_vector` with a fresh, valid name. -/
theorem add_vector_success (st : SymbolTable) (h : Heap) (name : String)
    (vec : List Scalar) (h1 : validSymbolName name = true)
    (h2 : st.sym.symbol_exists name = false) :
    st.add_vector h name vec =
      (.ok (some st.vectors.length),
       { st with sym := ⟨st.sym.syms ++ [(name, .vec st.vectors.length)]⟩,
                 vectors := st.vectors ++ [vec] },
       h) := by
  simp [SymbolTable.add_vector, CSymbolTable.add_vector,
    SymbolTable.validate_added, SymbolTable.symbol_exists, h1, h2]

/-- `add_vector` refused on an absent name: `InvalidName`, table restored,
heap untouched. -/
theorem add_vector_invalid (st : SymbolTable) (h : Heap) (name : String)
    (vec : List Scalar) (h1 : validSymbolName name = false)
    (h2 : st.sym.symbol_exists name = false) :
    st.add_vector h name vec = (.error ⟨name⟩, st, h) := by
  simp [SymbolTable.add_vector, CSymbolTable.add_vector,
    SymbolTable.validate_added, SymbolTable.symbol_exists, h1, h2,
    List.dropLast_concat]

/-- `add_vector` on a duplicate name: `Ok(None)`, push stays, heap untouched. -/
theorem add_vector_dup (st : SymbolTable) (h : Heap) (name : String)
    (vec : List Scalar) (h2 : st.sym.symbol_exists name = true) :
    st.add_vector h name vec =
      (.ok none, { st with vectors := st.vectors ++ [vec] }, h) := by
  simp [SymbolTable.add_vector, CSymbolTable.add_vector,
    SymbolTable.validate_added, SymbolTable.symbol_exists, h2]

/-! ## The claims -/

/-- C1 (counterexample): a second `add_variable("x", ..)` on a table that
already binds `"x"` returns `Ok(None)` and leaves the first ID's value
intact, but it does mutate observable state: the duplicate push makes slot 1
readable (`value(1)` flips from `None` to `Some(1.)`), refuting "does not
mutate any observable state of the table". -/
theorem c1_duplicate_add_mutates :
    exDup.1 = .ok none ∧
    exTable1.value exHeap1 1 = .ok none ∧
    exDup.2.1.value exDup.2.2 1 = .ok (some 1) := by decide

/-- C1 (amended): a second add of a name bound in any category returns
`Ok(None)`; the heap, the engine registry and every previously issued ID's
value are unchanged; but the wrapper's slot vector gains one alias entry
(`values ++ [variable_ref name]`) instead of staying untouched. -/
theorem c1_duplicate_add_spec (st : SymbolTable) (h : Heap) (name : String)
    (w : Scalar) (hex : st.sym.symbol_exists name = true) :
    (st.add_variable h name w).1 = .ok none ∧
    (st.add_variable h name w).2.2 = h ∧
    (st.add_variable h name w).2.1.sym = st.sym ∧
    (st.add_variable h name w).2.1.values
      = st.values ++ [st.sym.variable_ref name] ∧
    (∀ i, i < st.values.length →
      (st.add_variable h name w).2.1.value (st.add_variable h name w).2.2 i
        = st.value h i) := by
  rw [add_variable_dup st h name w hex]
  refine ⟨rfl, rfl, rfl, rfl, ?_⟩
  intro i hi
  simp [SymbolTable.value, List.getElem?_append_left hi]

theorem c1_duplicate_add_spec_witness :
    (exTable1.add_variable exHeap1 "x" 2).1 = .ok none ∧
    (exTable1.add_variable exHeap1 "x" 2).2.2 = exHeap1 ∧
    (exTable1.add_variable exHeap1 "x" 2).2.1.value
        (exTable1.add_variable exHeap1 "x" 2).2.2 0
      = exTable1.value exHeap1 0 := by
  have hs := c1_duplicate_add_spec exTable1 exHeap1 "x" 2 (by decide)
  exact ⟨hs.1, hs.2.1, hs.2.2.2.2 0 (by decide)⟩

/-- C2 (counterexample): after `add x, add x (duplicate), add y` the second
*successful* add (of `y`) returns ID 2, not 1 = the number of previously
successful adds: the duplicate `Ok(None)` attempt consumed a slot. -/
theorem c2_ids_not_contiguous :
    exRun.1 = [.ok (some 0), .ok none, .ok (some 2)] ∧
    (exRun.1.take 2).countP (fun e => match e with
        | .ok (some _) => true | _ => false) = 1 := by decide

/-- C2 (amended): the ID returned by a successful `add_variable` equals the
table's initial slot count plus the number of *previous non-erroring*
`add_variable` calls — duplicate-name attempts returning `Ok(None)` also
consume a slot, so IDs are monotonic but not contiguous across interleaved
duplicates. -/
theorem c2_returned_id_counts_ok_adds (ops : List (String × Scalar))
    (st : SymbolTable) (h : Heap) (k i : Nat)
    (hk : (run_adds ops st h).1[k]? = some (.ok (some i))) :
    i = st.values.length + ((run_adds ops st h).1.take k).countP isOkAdd := by
  induction ops generalizing st h k with
  | nil => simp [run_adds] at hk
  | cons op rest ih =>
      obtain ⟨n, v⟩ := op
      cases k with
      | zero =>
          have hr : (st.add_variable h n v).1 = .ok (some i) := by
            simpa [run_adds] using hk
          simpa [run_adds] using (add_variable_ok_some st h n v i hr).2.2
      | succ k =>
          have hk' : (run_adds rest (st.add_variable h n v).2.1
              (st.add_variable h n v).2.2).1[k]? = some (.ok (some i)) := by
            simpa [run_adds] using hk
          have hrec := ih (st.add_variable h n v).2.1
            (st.add_variable h n v).2.2 k hk'
          have hlen := add_variable_values_length st h n v
          have hgoal : (run_adds ((n, v) :: rest) st h).1
              = (st.add_variable h n v).1
                :: (run_adds rest (st.add_variable h n v).2.1
                    (st.add_variable h n v).2.2).1 := by
            simp [run_adds]
          rw [hgoal, List.take_succ_cons, List.countP_cons]
          by_cases hok : isOkAdd (st.add_variable h n v).1 = true
          · simp only [hok, if_true] at hlen ⊢
            omega
          · simp only [Bool.not_eq_true] at hok
            simp only [hok, Bool.false_eq_true, if_false] at hlen ⊢
            omega

theorem c2_returned_id_counts_ok_adds_witness :
    (0 : Nat) = SymbolTable.new.values.length
      + ((run_adds [("x", 1)] SymbolTable.new Heap.empty).1.take 0).countP
          isOkAdd :=
  c2_returned_id_counts_ok_adds [("x", 1)] SymbolTable.new Heap.empty 0 0
    (by decide)

/-- C3: after `add_variable("x", 0.)` returns `Ok(Some i)`, `set_value(i, v)`
succeeds and `value(i)` reads back exactly `v` — the mutation round-trip. -/
theorem c3_set_value_roundtrip (st : SymbolTable) (h : Heap) (i : Nat)
    (v : Scalar) (hadd : (st.add_variable h "x" 0).1 = .ok (some i)) :
    ∃ h2, (st.add_variable h "x" 0).2.1.set_value
            (st.add_variable h "x" 0).2.2 i v = .ok (true, h2) ∧
          (st.add_variable h "x" 0).2.1.value h2 i = .ok (some v) := by
  obtain ⟨h1, h2', hieq⟩ := add_variable_ok_some st h "x" 0 i hadd
  subst hieq
  rw [add_variable_success st h "x" 0 h1 h2']
  refine ⟨⟨(h.cells ++ [0]).set h.cells.length v, h.strs⟩, ?_, ?_⟩
  · simp [SymbolTable.set_value, List.getElem?_concat_length]
  · simp only [SymbolTable.value, List.getElem?_concat_length]
    rw [List.getD_eq_getElem?_getD, List.getElem?_set_eq_of_lt v (by simp)]
    rfl

theorem c3_set_value_roundtrip_witness :
    ∃ h2, (SymbolTable.new.add_variable Heap.empty "x" 0).2.1.set_value
            (SymbolTable.new.add_variable Heap.empty "x" 0).2.2 0 7
            = .ok (true, h2) ∧
          (SymbolTable.new.add_variable Heap.empty "x" 0).2.1.value h2 0
            = .ok (some 7) :=
  c3_set_value_roundtrip SymbolTable.new Heap.empty 0 7 (by decide)

/-- C4 (counterexample): the set/get round-trip fails on byte sequences
containing a NUL: after `set_string(0, [0])` succeeds, `string(0).get()`
returns `[]`, not `[0]` — `CStr::from_ptr` stops at the first NUL byte. -/
theorem c4_nul_byte_truncated :
    exStrA.1 = .ok (some 0) ∧ exStrASet.1 = true ∧
    exStrA.2.1.string_get exStrASet.2 0 = some [] ∧
    some ([] : Bytes) ≠ some ([0] : Bytes) := by decide

/-- C4 (amended): for a valid string slot, `set_string(i, b)` returns `true`
and `string(i).get()` returns the longest prefix of `b` free of NUL bytes; in
particular the round-trip returns exactly `b` whenever `b` contains no `0`
byte. -/
theorem c4_set_get_string (st : SymbolTable) (h : Heap) (i : Nat) (b : Bytes)
    (hwf : st.wf h = true) (hi : i < st.strings.length) :
    (st.set_string h i b).1 = true ∧
    st.string_get (st.set_string h i b).2 i
      = some (b.takeWhile (fun x => x ≠ 0)) ∧
    (b.all (fun x => x ≠ 0) = true →
      st.string_get (st.set_string h i b).2 i = some b) := by
  have hsome : st.strings[i]? = some st.strings[i] := List.getElem?_eq_getElem hi
  have hmem : st.strings[i] ∈ st.strings := List.getElem_mem hi
  have hlt : st.strings[i] < h.strs.length := wf_strings_lt st h hwf _ hmem
  have hget : st.string_get (st.set_string h i b).2 i
      = some (b.takeWhile (fun x => x ≠ 0)) := by
    simp [SymbolTable.set_string, hsome, SymbolTable.string_get,
      StringValue.set, StringValue.get, List.getD_eq_getElem?_getD,
      List.getElem?_set_eq_of_lt b hlt]
  refine ⟨by simp [SymbolTable.set_string, hsome], hget, ?_⟩
  intro hall
  rw [hget]
  congr 1
  exact List.takeWhile_eq_self_iff.mpr (by simpa [List.all_eq_true] using hall)

theorem c4_set_get_string_witness :
    (exStrTable.set_string exStrHeap 0 [10, 20]).1 = true ∧
    exStrTable.string_get (exStrTable.set_string exStrHeap 0 [10, 20]).2 0
      = some ([10, 20].takeWhile (fun x => x ≠ 0)) ∧
    (([10, 20] : Bytes).all (fun x => x ≠ 0) = true →
      exStrTable.string_get (exStrTable.set_string exStrHeap 0 [10, 20]).2 0
        = some [10, 20]) :=
  c4_set_get_string exStrTable exStrHeap 0 [10, 20] (by decide) (by decide)

/-- C5: `with_vars` on `"a*x^2 + b*x + c"` against an empty table reports the
auto-declared variables exactly as `[("a",0), ("x",1), ("b",2), ("c",3)]`
(first-occurrence order, IDs equal to positions), each initialised to `0`. -/
theorem c5_with_vars_order :
    exWV.1.2 = [("a", 0), ("x", 1), ("b", 2), ("c", 3)] ∧
    exWV.1.1.symbols.value exWV.2 0 = .ok (some 0) ∧
    exWV.1.1.symbols.value exWV.2 1 = .ok (some 0) ∧
    exWV.1.1.symbols.value exWV.2 2 = .ok (some 0) ∧
    exWV.1.1.symbols.value exWV.2 3 = .ok (some 0) := by decide

/-- C7: out-of-range variable IDs are rejected without panicking and without
mutating anything: `value` and `mut_value` return `None`, `set_value` returns
`false` with the heap unchanged (and the table, passed by value, is not
touched by construction). -/
theorem c7_out_of_range (st : SymbolTable) (h : Heap) (i : Nat) (v : Scalar)
    (hi : st.values.length ≤ i) :
    st.value h i = .ok none ∧ st.mut_value i = .ok none ∧
    st.set_value h i v = .ok (false, h) := by
  have hnone : st.values[i]? = none := List.getElem?_eq_none hi
  exact ⟨by simp [SymbolTable.value, hnone],
         by simp [SymbolTable.mut_value, hnone],
         by simp [SymbolTable.set_value, hnone]⟩

theorem c7_out_of_range_witness :
    exTable1.value exHeap1 5 = .ok none ∧ exTable1.mut_value 5 = .ok none ∧
    exTable1.set_value exHeap1 5 3 = .ok (false, exHeap1) :=
  c7_out_of_range exTable1 exHeap1 5 3 (by decide)

/-- C8: fetching the parse-error record with no pending error panics loudly;
with a pending error (and a recognised mode) it returns the full structured
record — kind, token type, token value, message, source line, line and column
numbers, all taken from the engine-side record. -/
theorem c8_get_err_spec (e : CParseError) :
    (e.is_err = false →
      Parser.get_err e
        = .panicked "Compiler notified about error, but there is none.") ∧
    (∀ k, e.is_err = true → ParseErrorKind.from_i32 e.mode = some k →
      Parser.get_err e
        = .ok ⟨k, e.token_type, e.token_value, e.diagnostic, e.error_line,
               e.line_no, e.column_no⟩) := by
  constructor
  · intro hf
    simp [Parser.get_err, hf]
  · intro k ht hk
    simp [Parser.get_err, ht, hk]

theorem c8_get_err_spec_witness :
    Parser.get_err exNoErrRecord
      = .panicked "Compiler notified about error, but there is none." ∧
    Parser.get_err exErrRecord
      = .ok ⟨.grammarKind, "token", "(", "unbalanced parenthesis", "(1",
             1, 2⟩ :=
  ⟨(c8_get_err_spec exNoErrRecord).1 rfl,
   (c8_get_err_spec exErrRecord).2 .grammarKind rfl rfl⟩

/-- C9: after a fresh `add_variable(name, v)` returned `Ok(Some i)`, the
reverse lookup `get_var_id(name)` recovers exactly `i`: the fresh cell's
address occurs nowhere earlier in the slot vector of a well-formed table, so
the first-position scan lands on the new slot. -/
theorem c9_get_var_id_roundtrip (st : SymbolTable) (h : Heap) (name : String)
    (v : Scalar) (i : Nat) (hwf : st.wf h = true)
    (hadd : (st.add_variable h name v).1 = .ok (some i)) :
    (st.add_variable h name v).2.1.get_var_id name = some i := by
  obtain ⟨h1, h2', hieq⟩ := add_variable_ok_some st h name v i hadd
  subst hieq
  rw [add_variable_success st h name v h1 h2']
  have href := variable_ref_append_fresh st.sym name h.cells.length h2'
  have hpos : position (fun q => q == some h.cells.length)
      (st.values ++ [some h.cells.length]) = some st.values.length := by
    refine position_append_fresh _ _ _ ?_ (by simp)
    intro o ho
    cases o with
    | none => simp
    | some p =>
        have hlt := wf_values_lt st h hwf (some p) ho p rfl
        have hne : p ≠ h.cells.length := Nat.ne_of_lt hlt
        simp [hne]
  simp [SymbolTable.get_var_id, SymbolTable.get_var_ptr, href, hpos]

theorem c9_get_var_id_roundtrip_witness :
    (SymbolTable.new.add_variable Heap.empty "x" 1).2.1.get_var_id "x"
      = some 0 :=
  c9_get_var_id_roundtrip SymbolTable.new Heap.empty "x" 1 0 (by decide)
    (by decide)

/-- C10: when `add_stringvar` / `add_vector` fails with `InvalidName`, the
provisionally pushed cell is popped again: the wrapper table is restored
exactly (so slot assignment and all existing IDs are unaffected), and no
scalar cell is touched; for a well-formed table every existing string slot
still reads the same contents. -/
theorem c10_failed_add_rollback (st : SymbolTable) (h : Heap) (name : String)
    (text : Bytes) (vec : List Scalar) :
    (∀ err, (st.add_stringvar h name text).1 = .error err →
        (st.add_stringvar h name text).2.1 = st ∧
        (st.add_stringvar h name text).2.2.cells = h.cells ∧
        (st.wf h = true → ∀ i,
          st.string_get (st.add_stringvar h name text).2.2 i
            = st.string_get h i)) ∧
    (∀ err, (st.add_vector h name vec).1 = .error err →
        (st.add_vector h name vec).2.1 = st ∧
        (st.add_vector h name vec).2.2 = h) := by
  constructor
  · intro err herr
    by_cases h2 : st.sym.symbol_exists name
    · rw [add_stringvar_dup st h name text h2] at herr
      simp at herr
    · by_cases h1 : validSymbolName name
      · rw [add_stringvar_success st h name text h1 (by simpa using h2)]
          at herr
        simp at herr
      · rw [add_stringvar_invalid st h name text (by simpa using h1)
            (by simpa using h2)]
        refine ⟨rfl, rfl, ?_⟩
        intro hwf i
        unfold SymbolTable.string_get
        cases hsi : st.strings[i]? with
        | none => simp
        | some p =>
            have hp : p < h.strs.length :=
              wf_strings_lt st h hwf p (List.getElem?_mem hsi)
            simp [StringValue.get, List.getD_eq_getElem?_getD,
              List.getElem?_append_left hp]
  · intro err herr
    by_cases h2 : st.sym.symbol_exists name
    · rw [add_vector_dup st h name vec h2] at herr
      simp at herr
    · by_cases h1 : validSymbolName name
      · rw [add_vector_success st h name vec h1 (by simpa using h2)] at herr
        simp at herr
      · rw [add_vector_invalid st h name vec (by simpa using h1)
            (by simpa using h2)]
        exact ⟨rfl, rfl⟩

/-! ### Clone: heap growth and pointer freshness

`Clone` re-adds every binding into a fresh engine table; each re-add allocates
its cell at the end of the heap, so all of the clone's pointers lie at or
above the original heap boundary, while the original table's pointers lie
strictly below it.  That disjointness is what makes the clone independent. -/

theorem cellsExtend_refl (h : Heap) : cellsExtend h h :=
  ⟨le_refl _, fun _ _ => rfl⟩

theorem cellsExtend_trans {h0 h1 h2 : Heap} (a : cellsExtend h0 h1)
    (b : cellsExtend h1 h2) : cellsExtend h0 h2 :=
  ⟨le_trans a.1 b.1, fun p hp => by
    rw [b.2 p (lt_of_lt_of_le hp a.1), a.2 p hp]⟩

theorem add_variable_cellsExtend (st : SymbolTable) (h : Heap) (n : String)
    (v : Scalar) : cellsExtend h (st.add_variable h n v).2.2 := by
  by_cases h2 : st.sym.symbol_exists n
  · rw [add_variable_dup st h n v h2]
    exact cellsExtend_refl h
  · by_cases h1 : validSymbolName n
    · rw [add_variable_success st h n v h1 (by simpa using h2)]
      exact ⟨by simp, fun p hp => List.getElem?_append_left hp⟩
    · rw [add_variable_invalid st h n v (by simpa using h1) (by simpa using h2)]
      exact cellsExtend_refl h

theorem add_variable_clone_inv (s : SymbolTable) (hc : Heap) (n : String)
    (v : Scalar) (L : Nat) (hL : L ≤ hc.cells.length) (hinv : CloneInv L s) :
    CloneInv L (s.add_variable hc n v).2.1 := by
  obtain ⟨hsym, hvals⟩ := hinv
  by_cases h2 : s.sym.symbol_exists n
  · rw [add_variable_dup s hc n v h2]
    refine ⟨hsym, ?_⟩
    intro o ho p hp
    rcases List.mem_append.mp ho with hmem | hmem
    · exact hvals o hmem p hp
    · simp at hmem
      subst hmem
      obtain ⟨n', hn'⟩ := variable_ref_mem s.sym n p hp
      exact hsym (n', .var p) hn' p rfl
  · by_cases h1 : validSymbolName n
    · rw [add_variable_success s hc n v h1 (by simpa using h2)]
      constructor
      · intro nb hnb p hp
        rcases List.mem_append.mp hnb with hmem | hmem
        · exact hsym nb hmem p hp
        · simp at hmem
          subst hmem
          injection hp with hqe
          exact hqe ▸ hL
      · intro o ho p hp
        rcases List.mem_append.mp ho with hmem | hmem
        · exact hvals o hmem p hp
        · simp at hmem
          subst hmem
          injection hp with hqe
          exact hqe ▸ hL
    · rw [add_variable_invalid s hc n v (by simpa using h1) (by simpa using h2)]
      exact ⟨hsym, hvals⟩

theorem clone_vars_fold (st : SymbolTable) (names : List String) :
    ∀ (sh : SymbolTable × Heap) (L : Nat), L ≤ sh.2.cells.length →
      CloneInv L sh.1 →
      cellsExtend sh.2 (names.foldl (clone_var_step st) sh).2 ∧
      L ≤ (names.foldl (clone_var_step st) sh).2.cells.length ∧
      CloneInv L (names.foldl (clone_var_step st) sh).1 := by
  induction names with
  | nil =>
      intro sh L hL hinv
      exact ⟨cellsExtend_refl sh.2, hL, hinv⟩
  | cons n ns ih =>
      intro sh L hL hinv
      have hext := add_variable_cellsExtend sh.1 sh.2 n
        (st.clone_var_value sh.2 n)
      have hinv' := add_variable_clone_inv sh.1 sh.2 n
        (st.clone_var_value sh.2 n) L hL hinv
      have hL' : L ≤ (clone_var_step st sh n).2.cells.length :=
        le_trans hL hext.1
      obtain ⟨e1, e2, e3⟩ := ih (clone_var_step st sh n) L hL' hinv'
      exact ⟨cellsExtend_trans hext e1, e2, e3⟩

theorem add_stringvar_keeps (s : SymbolTable) (hc : Heap) (n : String)
    (t : Bytes) :
    (s.add_stringvar hc n t).2.2.cells = hc.cells ∧
    (s.add_stringvar hc n t).2.1.values = s.values := by
  by_cases h2 : s.sym.symbol_exists n
  · rw [add_stringvar_dup s hc n t h2]
    exact ⟨rfl, rfl⟩
  · by_cases h1 : validSymbolName n
    · rw [add_stringvar_success s hc n t h1 (by simpa using h2)]
      exact ⟨rfl, rfl⟩
    · rw [add_stringvar_invalid s hc n t (by simpa using h1) (by simpa using h2)]
      exact ⟨rfl, rfl⟩

theorem clone_strings_fold (st : SymbolTable) (names : List String) :
    ∀ sh : SymbolTable × Heap,
      (names.foldl (clone_str_step st) sh).2.cells = sh.2.cells ∧
      (names.foldl (clone_str_step st) sh).1.values = sh.1.values := by
  induction names with
  | nil => intro sh; exact ⟨rfl, rfl⟩
  | cons n ns ih =>
      intro sh
      have hk := add_stringvar_keeps sh.1 sh.2 n (st.clone_string_value sh.2 n)
      obtain ⟨e1, e2⟩ := ih (clone_str_step st sh n)
      exact ⟨e1.trans hk.1, e2.trans hk.2⟩

theorem add_vector_keeps (s : SymbolTable) (hc : Heap) (n : String)
    (v : List Scalar) :
    (s.add_vector hc n v).2.2 = hc ∧
    (s.add_vector hc n v).2.1.values = s.values := by
  by_cases h2 : s.sym.symbol_exists n
  · rw [add_vector_dup s hc n v h2]
    exact ⟨rfl, rfl⟩
  · by_cases h1 : validSymbolName n
    · rw [add_vector_success s hc n v h1 (by simpa using h2)]
      exact ⟨rfl, rfl⟩
    · rw [add_vector_invalid s hc n v (by simpa using h1) (by simpa using h2)]
      exact ⟨rfl, rfl⟩

theorem clone_vectors_fold (st : SymbolTable) (names : List String) :
    ∀ sh : SymbolTable × Heap,
      (names.foldl (clone_vec_step st) sh).2 = sh.2 ∧
      (names.foldl (clone_vec_step st) sh).1.values = sh.1.values := by
  induction names with
  | nil => intro sh; exact ⟨rfl, rfl⟩
  | cons n ns ih =>
      intro sh
      have hk := add_vector_keeps sh.1 sh.2 n (st.clone_vec_value n)
      obtain ⟨e1, e2⟩ := ih (clone_vec_step st sh n)
      exact ⟨e1.trans hk.1, e2.trans hk.2⟩

/-- The clone's heap extends the original, and every slot pointer of the
clone lies at or above the original heap boundary. -/
theorem clone_cells_values (st : SymbolTable) (h : Heap) :
    cellsExtend h (st.clone h).2 ∧
    (∀ o ∈ (st.clone h).1.values, ∀ p, o = some p → h.cells.length ≤ p) := by
  have hinv0 : CloneInv h.cells.length
      { SymbolTable.new with sym := CSymbolTable.empty.load_from st.sym } := by
    constructor
    · intro nb hnb p hp
      simp [CSymbolTable.load_from, CSymbolTable.empty, SymbolTable.new,
        List.mem_filter] at hnb
      obtain ⟨hmem, hfil⟩ := hnb
      rw [hp] at hfil
      simp at hfil
    · intro o ho p hp
      simp [SymbolTable.new] at ho
  have hclone : st.clone h
      = st.sym.vector_names.foldl (clone_vec_step st)
          (st.sym.stringvar_names.foldl (clone_str_step st)
            (st.sym.variable_names.foldl (clone_var_step st)
              ({ SymbolTable.new with
                  sym := CSymbolTable.empty.load_from st.sym }, h))) := rfl
  obtain ⟨e1, _, einv⟩ := clone_vars_fold st st.sym.variable_names
    ({ SymbolTable.new with sym := CSymbolTable.empty.load_from st.sym }, h)
    h.cells.length (le_refl _) hinv0
  obtain ⟨f1, f2⟩ := clone_strings_fold st st.sym.stringvar_names
    (st.sym.variable_names.foldl (clone_var_step st)
      ({ SymbolTable.new with
          sym := CSymbolTable.empty.load_from st.sym }, h))
  obtain ⟨g1, g2⟩ := clone_vectors_fold st st.sym.vector_names
    (st.sym.stringvar_names.foldl (clone_str_step st)
      (st.sym.variable_names.foldl (clone_var_step st)
        ({ SymbolTable.new with
            sym := CSymbolTable.empty.load_from st.sym }, h)))
  rw [hclone]
  constructor
  · refine ⟨?_, ?_⟩
    · rw [g1, f1]
      exact e1.1
    · intro p hp
      rw [g1, f1]
      exact e1.2 p hp
  · intro o ho p hp
    rw [g2, f2] at ho
    exact einv.2 o ho p hp

/-- C6: after `clone`, mutating the clone's slot for a name `n` present in
both tables does not change the value the original table observes for `n`:
the clone's cells are freshly allocated above the original heap boundary,
so the write cannot alias any original cell. -/
theorem c6_clone_independence (st : SymbolTable) (h : Heap) (n : String)
    (v : Scalar) (i i' : Nat) (h2 : Heap) (hwf : st.wf h = true)
    (hi : st.get_var_id n = some i)
    (hi' : (st.clone h).1.get_var_id n = some i')
    (hset : (st.clone h).1.set_value (st.clone h).2 i' v = .ok (true, h2)) :
    st.value h2 i = st.value h i := by
  unfold SymbolTable.get_var_id SymbolTable.get_var_ptr at hi hi'
  cases href : st.sym.variable_ref n with
  | none =>
      rw [href] at hi
      simp at hi
  | some p =>
      rw [href] at hi
      simp only [Option.some_bind] at hi
      obtain ⟨o, hoi, hpo⟩ := position_eq_some_spec _ _ _ hi
      have ho : o = some p := by simpa using hpo
      subst ho
      obtain ⟨n', hmem⟩ := variable_ref_mem st.sym n p href
      have hpL : p < h.cells.length := wf_sym_var_lt st h hwf (n', .var p) hmem p rfl
      cases href' : (st.clone h).1.sym.variable_ref n with
      | none =>
          rw [href'] at hi'
          simp at hi'
      | some p' =>
          rw [href'] at hi'
          simp only [Option.some_bind] at hi'
          obtain ⟨o', hoi', hpo'⟩ := position_eq_some_spec _ _ _ hi'
          have ho' : o' = some p' := by simpa using hpo'
          subst ho'
          have hp'L : h.cells.length ≤ p' :=
            (clone_cells_values st h).2 (some p') (List.getElem?_mem hoi') p' rfl
          unfold SymbolTable.set_value at hset
          rw [hoi'] at hset
          simp only [PanicOr.ok.injEq, Prod.mk.injEq] at hset
          have hh2 : h2.cells = (st.clone h).2.cells.set p' v := by
            rw [← hset.2]
          have hcell : h2.cells[p]? = h.cells[p]? := by
            rw [hh2, List.getElem?_set_ne
              (Nat.ne_of_gt (lt_of_lt_of_le hpL hp'L))]
            exact (clone_cells_values st h).1.2 p hpL
          unfold SymbolTable.value
          rw [hoi]
          show PanicOr.ok (some (h2.cells.getD p 0))
              = PanicOr.ok (some (h.cells.getD p 0))
          rw [List.getD_eq_getElem?_getD, List.getD_eq_getElem?_getD, hcell]

theorem c6_clone_independence_witness :
    exTable2.value exCloneHeapSet 0 = exTable2.value exHeap2 0 :=
  c6_clone_independence exTable2 exHeap2 "x" 99 0 0 exCloneHeapSet
    (by decide) (by decide) (by decide) (by decide)

theorem c10_failed_add_rollback_witness :
    (SymbolTable.new.add_stringvar Heap.empty "1x" [65]).2.1
      = SymbolTable.new ∧
    (SymbolTable.new.add_vector Heap.empty "1x" [1, 2]).2.1
      = SymbolTable.new ∧
    (SymbolTable.new.add_vector Heap.empty "1x" [1, 2]).2.2 = Heap.empty := by
  have hs := (c10_failed_add_rollback SymbolTable.new Heap.empty "1x" [65]
      [1, 2]).1 ⟨"1x"⟩ (by decide)
  have hv := (c10_failed_add_rollback SymbolTable.new Heap.empty "1x" [65]
      [1, 2]).2 ⟨"1x"⟩ (by decide)
  exact ⟨hs.1, hv.1, hv.2⟩

end Exprtk
